import Mathlib

/-
Verification of the nyx closed-loop low-thrust orbit transfer engine
against its specification.

The extracted source surface consists of the closed-loop Ruggiero test
suite (tests/prop/closedloop_single_oe_ruggiero.rs) and the Python
ground-station bindings (src/python/orbit_determination/ground_station.rs).
The core engine (Ruggiero controller, propulsion stack, RK4 propagator,
Keplerian conversion) is exercised by those tests but its code is not part
of the extracted surface; the corresponding definitions below are modelled
from the specification, as indicated in their doc comments.  Real-valued
quantities of the program are embedded as rationals so that every
definition is executable.
-/

namespace Nyx

/-- A 3-vector of rationals standing for an ℝ³ vector of the program
(kilometres or kilometres per second). -/
abbrev Vec3 : Type := ℚ × ℚ × ℚ

/-- The osculating-element view of an orbit state, together with its epoch
(seconds past some reference).  Elements are in the element-native public
units of the spec: km for `sma`, dimensionless `ecc`, degrees for `inc`,
`raan`, `aop`, `ta`. -/
structure Orbit where
  epoch : ℚ
  sma : ℚ
  ecc : ℚ
  inc : ℚ
  raan : ℚ
  aop : ℚ
  ta : ℚ
deriving Repr, DecidableEq

/-- The objective enumeration, mirroring `Achieve` of
`nyx::dynamics::thrustctrl` as used by the test suite: each variant holds a
`target` and a tolerance `tol` in element-native units. -/
inductive Achieve where
  | Sma (target : ℚ) (tol : ℚ)
  | Ecc (target : ℚ) (tol : ℚ)
  | Inc (target : ℚ) (tol : ℚ)
  | Aop (target : ℚ) (tol : ℚ)
  | Raan (target : ℚ) (tol : ℚ)
deriving Repr, DecidableEq

/-- The current value of the osculating element an objective steers,
read off the orbit in the element-native units of that objective. -/
def Achieve.current (o : Achieve) (orbit : Orbit) : ℚ :=
  match o with
  | .Sma _ _ => orbit.sma
  | .Ecc _ _ => orbit.ecc
  | .Inc _ _ => orbit.inc
  | .Aop _ _ => orbit.aop
  | .Raan _ _ => orbit.raan

/-- The target of an objective. -/
def Achieve.target : Achieve → ℚ
  | .Sma t _ => t
  | .Ecc t _ => t
  | .Inc t _ => t
  | .Aop t _ => t
  | .Raan t _ => t

/-- The tolerance of an objective. -/
def Achieve.tol : Achieve → ℚ
  | .Sma _ tol => tol
  | .Ecc _ tol => tol
  | .Inc _ tol => tol
  | .Aop _ tol => tol
  | .Raan _ tol => tol

/-- Modelled from the spec: whether a single objective is met at the given
orbit — `|target − current| ≤ tol`, the tolerance taken in element-native
units.  (`Ruggiero`'s per-objective achievement test is not part of the
extracted source surface.) -/
def Achieve.isAchieved (o : Achieve) (orbit : Orbit) : Bool :=
  decide (|o.target - o.current orbit| ≤ o.tol)

/-- Modelled from the spec: the Ruggiero controller state — the list of
objectives and the immutable snapshot of the initial orbit captured at
construction.  (The `Ruggiero` struct itself is not part of the extracted
source surface.) -/
structure Ruggiero where
  objectives : List Achieve
  init : Orbit
deriving Repr

/-- Modelled from the spec: `make_ruggiero` (`Ruggiero::new` in the test
suite) builds the controller from the objective list and the initial orbit
snapshot. -/
def Ruggiero.new (objectives : List Achieve) (init : Orbit) : Ruggiero :=
  { objectives := objectives, init := init }

/-- Modelled from the spec: the controller's achievement predicate —
`achieved = ∀ obj: |target − current| ≤ tol` over the controller's
objective list, evaluated on the given orbit. -/
def Ruggiero.achieved (c : Ruggiero) (orbit : Orbit) : Bool :=
  c.objectives.all (fun o => o.isAchieved orbit)

/-- C1: the controller built by `make_ruggiero` reports `achieved` on an
orbit exactly when every objective in its list has
`|target − current| ≤ tol`, the tolerance and the current element taken in
element-native units (km for SMA, degrees for INC/AOP/RAAN angles,
dimensionless for ECC). -/
theorem ruggiero_achieved_iff (objectives : List Achieve) (init : Orbit)
    (orbit : Orbit) :
    (Ruggiero.new objectives init).achieved orbit = true ↔
      ∀ o ∈ objectives,
        match o with
        | .Sma target tol => |target - orbit.sma| ≤ tol
        | .Ecc target tol => |target - orbit.ecc| ≤ tol
        | .Inc target tol => |target - orbit.inc| ≤ tol
        | .Aop target tol => |target - orbit.aop| ≤ tol
        | .Raan target tol => |target - orbit.raan| ≤ tol := by
  unfold Ruggiero.achieved Ruggiero.new
  rw [List.all_eq_true]
  constructor
  · intro h o ho
    have := h o ho
    rw [Achieve.isAchieved, decide_eq_true_iff] at this
    cases o <;>
      simpa [Achieve.target, Achieve.tol, Achieve.current] using this
  · intro h o ho
    rw [Achieve.isAchieved, decide_eq_true_iff]
    have := h o ho
    cases o <;>
      simpa [Achieve.target, Achieve.tol, Achieve.current] using this

/-- A thruster of the propulsion stack: thrust in Newtons and specific
impulse in seconds, as in `nyx::dynamics::propulsion::Thruster`. -/
structure Thruster where
  thrust : ℚ
  isp : ℚ
deriving Repr, DecidableEq

/-- Standard gravity `g₀ = 9.80665 m/s²` of the spec. -/
def g0 : ℚ := 980665 / 100000

/-- Coordinatewise scaling of a 3-vector by a rational. -/
def vscale (c : ℚ) (u : Vec3) : Vec3 := (c * u.1, c * u.2.1, c * u.2.2)

/-- Modelled from the spec: the propulsion stack's
`acceleration_and_mass_flow` (the `Propulsion` module is not part of the
extracted source surface).  The controller's answer is the unit direction
`uhat` and the throttle `τ`.  If `τ = 0` or `m_fuel ≤ 0` the result is the
zero acceleration and zero mass flow; otherwise the thruster stack is
aggregated into a total thrust `F` and a thrust-weighted average `Isp`, the
acceleration is `(F / m_total) · uhat · 1e−3` (N/kg to km/s²) and the mass
flow is `−F / (Isp · g₀)`. -/
def accelerationAndMassFlow (thrusters : List Thruster) (uhat : Vec3)
    (τ : ℚ) (m_fuel : ℚ) (m_total : ℚ) : Vec3 × ℚ :=
  if τ = 0 ∨ m_fuel ≤ 0 then ((0, 0, 0), 0)
  else
    let F : ℚ := (thrusters.map Thruster.thrust).sum
    let isp : ℚ := (thrusters.map (fun t => t.thrust * t.isp)).sum / F
    (vscale (F / m_total * (1 / 1000)) uhat, -F / (isp * g0))

/-- C6: whenever the controller's throttle is `0` or the fuel mass is at or
below zero, the propulsion stack returns exactly the zero acceleration
vector and zero mass flow — fuel depletion is not an error and the
evaluation degenerates to ballistic flight. -/
theorem accelerationAndMassFlow_zero (thrusters : List Thruster)
    (uhat : Vec3) (τ : ℚ) (m_fuel : ℚ) (m_total : ℚ)
    (h : τ = 0 ∨ m_fuel ≤ 0) :
    accelerationAndMassFlow thrusters uhat τ m_fuel m_total =
      ((0, 0, 0), 0) := by
  rw [accelerationAndMassFlow, if_pos h]

/-- Witness for C6: a concrete evaluation with the 89 mN / 1650 s test
thruster, a unit radial direction and throttle `0`. -/
theorem accelerationAndMassFlow_zero_witness :
    accelerationAndMassFlow [⟨89 / 1000, 1650⟩] (1, 0, 0) 0 67 367 =
      ((0, 0, 0), 0) :=
  accelerationAndMassFlow_zero [⟨89 / 1000, 1650⟩] (1, 0, 0) 0 67 367
    (Or.inl rfl)

/-- Modelled from the spec: the scalar mass-flow component of a propulsion
evaluation — `0` when the throttle is zero or the fuel is depleted,
`−F / (Isp · g₀)` otherwise, with `F` the aggregated thrust and `isp` the
thrust-weighted stack average. -/
def massFlow (F : ℚ) (isp : ℚ) (τ : ℚ) (m_fuel : ℚ) : ℚ :=
  if τ = 0 ∨ m_fuel ≤ 0 then 0 else -F / (isp * g0)

/-- A rational is a possible mass-flow value of the propulsion stack: it is
`massFlow` evaluated at a nonnegative aggregated thrust, a nonnegative
average specific impulse, some throttle and some fuel mass. -/
def IsMassFlow (k : ℚ) : Prop :=
  ∃ F isp τ m_fuel : ℚ, 0 ≤ F ∧ 0 ≤ isp ∧ k = massFlow F isp τ m_fuel

/-- Every possible mass-flow value is nonpositive. -/
theorem IsMassFlow.nonpos {k : ℚ} (h : IsMassFlow k) : k ≤ 0 := by
  obtain ⟨F, isp, τ, m_fuel, hF, hisp, rfl⟩ := h
  rw [massFlow]
  split
  · exact le_refl 0
  · have hg : (0 : ℚ) ≤ isp * g0 := by
      have : (0 : ℚ) ≤ g0 := by norm_num [g0]
      exact mul_nonneg hisp this
    have : -F ≤ 0 := neg_nonpos_of_nonneg hF
    exact div_nonpos_of_nonpos_of_nonneg this hg

/-- Modelled from the spec: the fuel-mass update of one RK4 step — the four
stage mass-flow evaluations are combined with the classical weights
`(1, 2, 2, 1)/6`, integrated over the step `h`, and the resulting fuel mass
is clamped to `[0, ∞)` after the step. -/
def stepFuel (h : ℚ) (fuel : ℚ) (k1 k2 k3 k4 : ℚ) : ℚ :=
  max 0 (fuel + h * (k1 + 2 * k2 + 2 * k3 + k4) / 6)

/-- Modelled from the spec: the fuel mass along a propagation run — the
initial fuel `f0` stepped by `stepFuel` with constant step `h`, the `n`-th
step using the four stage mass-flow values `stages n`. -/
def fuelProfile (f0 : ℚ) (h : ℚ) (stages : ℕ → ℚ × ℚ × ℚ × ℚ) : ℕ → ℚ
  | 0 => f0
  | n + 1 =>
    let k := stages n
    stepFuel h (fuelProfile f0 h stages n) k.1 k.2.1 k.2.2.1 k.2.2.2

/-- One RK4 step never increases a nonnegative fuel mass when every stage
mass-flow value is nonpositive. -/
theorem stepFuel_le (h : ℚ) (fuel : ℚ) (k1 k2 k3 k4 : ℚ)
    (hfuel : 0 ≤ fuel) (hh : 0 ≤ h) (h1 : k1 ≤ 0) (h2 : k2 ≤ 0)
    (h3 : k3 ≤ 0) (h4 : k4 ≤ 0) :
    stepFuel h fuel k1 k2 k3 k4 ≤ fuel := by
  rw [stepFuel]
  refine max_le hfuel ?_
  have hsum : k1 + 2 * k2 + 2 * k3 + k4 ≤ 0 := by linarith
  have : h * (k1 + 2 * k2 + 2 * k3 + k4) / 6 ≤ 0 := by
    have := mul_nonpos_of_nonneg_of_nonpos hh hsum
    linarith
  linarith

/-- C2: along a propagation run whose stage values are genuine propulsion
mass-flow evaluations, the fuel mass at any later step is at most the fuel
mass at any earlier step — each RK4 step leaves `m_fuel` unchanged or
decreased, never increased. -/
theorem fuelProfile_antitone (f0 : ℚ) (h : ℚ)
    (stages : ℕ → ℚ × ℚ × ℚ × ℚ) (hf : 0 ≤ f0) (hh : 0 ≤ h)
    (hst : ∀ n, IsMassFlow (stages n).1 ∧ IsMassFlow (stages n).2.1 ∧
      IsMassFlow (stages n).2.2.1 ∧ IsMassFlow (stages n).2.2.2) :
    ∀ n m : ℕ, n ≤ m →
      fuelProfile f0 h stages m ≤ fuelProfile f0 h stages n := by
  have hnonneg : ∀ n, 0 ≤ fuelProfile f0 h stages n := by
    intro n
    cases n with
    | zero => exact hf
    | succ n => exact le_max_left 0 _
  have hstep : ∀ n,
      fuelProfile f0 h stages (n + 1) ≤ fuelProfile f0 h stages n := by
    intro n
    obtain ⟨h1, h2, h3, h4⟩ := hst n
    exact stepFuel_le h _ _ _ _ _ (hnonneg n) hh h1.nonpos h2.nonpos
      h3.nonpos h4.nonpos
  intro n m hnm
  exact antitone_nat_of_succ_le hstep hnm

/-- Witness for C2: with the initial 67 kg of fuel, a 10 s step and every
stage equal to the thrusting mass flow of the 89 mN / 1650 s thruster, the
fuel after two steps is at most the fuel at the start. -/
theorem fuelProfile_antitone_witness :
    fuelProfile 67 10
        (fun _ => (massFlow (89 / 1000) 1650 1 67,
          massFlow (89 / 1000) 1650 1 67, massFlow (89 / 1000) 1650 1 67,
          massFlow (89 / 1000) 1650 1 67)) 2 ≤
      fuelProfile 67 10
        (fun _ => (massFlow (89 / 1000) 1650 1 67,
          massFlow (89 / 1000) 1650 1 67, massFlow (89 / 1000) 1650 1 67,
          massFlow (89 / 1000) 1650 1 67)) 0 := by
  refine fuelProfile_antitone 67 10 _ (by norm_num) (by norm_num) ?_ 0 2
    (by norm_num)
  intro n
  refine ⟨?_, ?_, ?_, ?_⟩ <;>
    exact ⟨89 / 1000, 1650, 1, 67, by norm_num, by norm_num, rfl⟩

/-- Modelled from the spec: the fixed-step propagation loop of
`Propagator::until_time_elapsed` (the propagator is not part of the
extracted source surface).  Starting at `epoch` with `remaining` seconds
still requested, the propagator takes full steps of `h` seconds — the
final one truncated to `min h remaining` so as to land exactly on the
requested epoch — until the requested duration is exhausted.  The result
is the final epoch and the number of steps taken. -/
def untilTimeElapsed (h : ℚ) (epoch : ℚ) (remaining : ℚ) : ℚ × ℕ :=
  if hc : h ≤ 0 ∨ remaining ≤ 0 then (epoch, 0)
  else
    let dt := min h remaining
    let rest := untilTimeElapsed h (epoch + dt) (remaining - dt)
    (rest.1, rest.2 + 1)
termination_by (⌈remaining / h⌉).toNat
decreasing_by
  push_neg at hc
  obtain ⟨hh0, hr0⟩ := hc
  have hpos : (0 : ℚ) < remaining / h := div_pos hr0 hh0
  have hceil : 0 < ⌈remaining / h⌉ := Int.ceil_pos.mpr hpos
  rcases le_or_lt remaining h with hle | hlt
  · have hdt : min h remaining = remaining := min_eq_right hle
    rw [hdt]
    simp only [sub_self, zero_div, Int.ceil_zero]
    omega
  · have hdt : min h remaining = h := min_eq_left (le_of_lt hlt)
    rw [hdt]
    have : (remaining - h) / h = remaining / h - 1 := by
      field_simp
    rw [this]
    have : ⌈remaining / h - (1 : ℚ)⌉ = ⌈remaining / h⌉ - 1 := by
      exact_mod_cast Int.ceil_sub_int (remaining / h) 1
    rw [this]
    omega

/-- Auxiliary induction for the propagation loop: when the step and the
requested duration are positive, the loop lands exactly on
`epoch + remaining` and takes `⌈remaining / h⌉` steps. -/
theorem untilTimeElapsed_eq (h : ℚ) (hh : 0 < h) :
    ∀ (n : ℕ) (epoch remaining : ℚ), 0 < remaining →
      (⌈remaining / h⌉).toNat = n →
      untilTimeElapsed h epoch remaining = (epoch + remaining, n) := by
  intro n
  induction n with
  | zero =>
    intro epoch remaining hr hn
    exfalso
    have : 0 < ⌈remaining / h⌉ := Int.ceil_pos.mpr (div_pos hr hh)
    omega
  | succ n ih =>
    intro epoch remaining hr hn
    rw [untilTimeElapsed]
    rw [dif_neg (by push_neg; exact ⟨hh, hr⟩)]
    rcases le_or_lt remaining h with hle | hlt
    · have hdt : min h remaining = remaining := min_eq_right hle
      have hrec : untilTimeElapsed h (epoch + remaining) 0 = (epoch + remaining, 0) := by
        rw [untilTimeElapsed]
        rw [dif_pos (Or.inr (le_refl 0))]
      have hone : ⌈remaining / h⌉ = 1 := by
        have h1 : remaining / h ≤ 1 := by
          rw [div_le_one hh]
          exact hle
        have h2 : 0 < ⌈remaining / h⌉ := Int.ceil_pos.mpr (div_pos hr hh)
        have h3 : ⌈remaining / h⌉ ≤ 1 := by
          have := Int.ceil_le.mpr (by exact_mod_cast h1 : remaining / h ≤ ((1 : ℤ) : ℚ))
          exact_mod_cast this
        omega
      have hn0 : n = 0 := by omega
      simp only [hdt, sub_self, hrec, hn0]
    · have hdt : min h remaining = h := min_eq_left (le_of_lt hlt)
      have hr2 : 0 < remaining - h := by linarith
      have hceil : ⌈(remaining - h) / h⌉ = ⌈remaining / h⌉ - 1 := by
        have heq : (remaining - h) / h = remaining / h - 1 := by
          field_simp
        rw [heq]
        exact_mod_cast Int.ceil_sub_int (remaining / h) 1
      have hpos : 0 < ⌈remaining / h⌉ := Int.ceil_pos.mpr (div_pos hr hh)
      have hn2 : (⌈(remaining - h) / h⌉).toNat = n := by omega
      have := ih (epoch + h) (remaining - h) hr2 hn2
      simp only [hdt, this, Prod.mk.injEq]
      exact ⟨by ring, trivial⟩

/-- C7: for a positive requested duration `Δt` and a positive fixed step
`h`, `until_time_elapsed` performs exactly `⌈Δt / h⌉` steps, the final step
truncated so that the epoch after the call is the start epoch plus exactly
`Δt` seconds. -/
theorem untilTimeElapsed_spec (h : ℚ) (epoch : ℚ) (Δt : ℚ)
    (hh : 0 < h) (ht : 0 < Δt) :
    untilTimeElapsed h epoch Δt = (epoch + Δt, (⌈Δt / h⌉).toNat) :=
  untilTimeElapsed_eq h hh (⌈Δt / h⌉).toNat epoch Δt ht rfl

/-- Witness for C7: a 25 s propagation at a 10 s fixed step ends exactly
25 s after the start epoch and takes `⌈25/10⌉ = 3` steps. -/
theorem untilTimeElapsed_spec_witness :
    untilTimeElapsed 10 0 25 = (25, 3) := by
  have h1 := untilTimeElapsed_spec 10 0 25 (by norm_num) (by norm_num)
  have h2 : ⌈(25 : ℚ) / 10⌉ = 3 := by
    rw [Int.ceil_eq_iff]
    norm_num
  rw [h1, h2]
  norm_num
  rfl

/-- The error type of the ground-station bindings; `measure` only ever
builds the `CustomError` variant, whose payload is the formatted message. -/
inductive NyxError where
  | CustomError (msg : String)
deriving Repr, DecidableEq

/-- A computed one-way measurement, exposing its observation vector; the
bindings read components `obs[0]` (range, km) and `obs[1]` (Doppler,
km/s). -/
structure Measurement where
  obs : ℕ → ℚ

/-- The ground station of the Python bindings, with the fields the binding
file reads and writes: `name`, `elevation_mask_deg`, `latitude_deg`,
`longitude_deg`, `height_km`. -/
structure GroundStation where
  name : String
  elevation_mask_deg : ℚ
  latitude_deg : ℚ
  longitude_deg : ℚ
  height_km : ℚ
deriving Repr, DecidableEq

/-- The binding `GroundStation::measure` from
src/python/orbit_determination/ground_station.rs: it calls
`measure_instantaneous` (propagating its error with `?`), returns
`(msr.obs[0], msr.obs[1])` when a measurement was computed, and the
`CustomError` "Orbit not visible at ⟨epoch⟩." when the orbit is not
visible.  `measure_instantaneous` lives outside the extracted surface and
is passed in as the function `minst`. -/
def GroundStation.measure
    (minst : GroundStation → Orbit → Except NyxError (Option Measurement))
    (self : GroundStation) (orbit : Orbit) : Except NyxError (ℚ × ℚ) :=
  match minst self orbit with
  | .error e => .error e
  | .ok (some msr) => .ok (msr.obs 0, msr.obs 1)
  | .ok none =>
    .error (.CustomError ("Orbit not visible at " ++ toString orbit.epoch ++ "."))

/-- C9: whenever the instantaneous measurement computation succeeds,
`GroundStation::measure` returns an error exactly when that computation
reports the orbit as not visible (`None`), and otherwise returns the pair
of the first two observation components — range in kilometres and Doppler
in kilometres per second. -/
theorem groundStation_measure_spec
    (minst : GroundStation → Orbit → Except NyxError (Option Measurement))
    (gs : GroundStation) (orbit : Orbit) (v : Option Measurement)
    (hv : minst gs orbit = .ok v) :
    ((∃ e, GroundStation.measure minst gs orbit = .error e) ↔ v = none) ∧
      (∀ msr, v = some msr →
        GroundStation.measure minst gs orbit = .ok (msr.obs 0, msr.obs 1)) := by
  constructor
  · constructor
    · rintro ⟨e, he⟩
      cases v with
      | none => rfl
      | some msr =>
        rw [GroundStation.measure, hv] at he
        exact absurd he (by simp)
    · rintro rfl
      exact ⟨_, by rw [GroundStation.measure, hv]⟩
  · rintro msr rfl
    rw [GroundStation.measure, hv]

/-- Witness for C9: with an instantaneous-measurement function that reports
visibility with observations `(1500, −3/2)`, `measure` returns exactly that
range/Doppler pair; with one that reports non-visibility, it errs. -/
theorem groundStation_measure_spec_witness :
    GroundStation.measure
        (fun _ _ => .ok (some ⟨fun i => if i = 0 then 1500 else -3 / 2⟩))
        ⟨"Demo", 5, 45, 7, 0⟩ ⟨0, 24396, 0, 0, 0, 0, 0⟩ =
      .ok (1500, -3 / 2) := by
  have h := groundStation_measure_spec
    (fun _ _ => .ok (some ⟨fun i => if i = 0 then 1500 else -3 / 2⟩))
    ⟨"Demo", 5, 45, 7, 0⟩ ⟨0, 24396, 0, 0, 0, 0, 0⟩
    (some ⟨fun i => if i = 0 then 1500 else -3 / 2⟩) rfl
  have := h.2 ⟨fun i => if i = 0 then 1500 else -3 / 2⟩ rfl
  simpa using this

/-- Getter `get_name` of the bindings. -/
def GroundStation.get_name (self : GroundStation) : Except NyxError String :=
  .ok self.name

/-- Setter `set_name` of the bindings: updates `name`, returns `Ok`. -/
def GroundStation.set_name (self : GroundStation) (name : String) :
    Except NyxError GroundStation :=
  .ok { self with name := name }

/-- Getter `get_elevation_mask_deg` of the bindings. -/
def GroundStation.get_elevation_mask_deg (self : GroundStation) :
    Except NyxError ℚ :=
  .ok self.elevation_mask_deg

/-- Setter `set_elevation_mask_deg` of the bindings: updates
`elevation_mask_deg`, returns `Ok`. -/
def GroundStation.set_elevation_mask_deg (self : GroundStation)
    (mask_deg : ℚ) : Except NyxError GroundStation :=
  .ok { self with elevation_mask_deg := mask_deg }

/-- Getter `get_latitude_deg` of the bindings. -/
def GroundStation.get_latitude_deg (self : GroundStation) :
    Except NyxError ℚ :=
  .ok self.latitude_deg

/-- Setter `set_latitude_deg` of the bindings: updates `latitude_deg`,
returns `Ok`. -/
def GroundStation.set_latitude_deg (self : GroundStation) (lat_deg : ℚ) :
    Except NyxError GroundStation :=
  .ok { self with latitude_deg := lat_deg }

/-- Getter `get_longitude_deg` of the bindings. -/
def GroundStation.get_longitude_deg (self : GroundStation) :
    Except NyxError ℚ :=
  .ok self.longitude_deg

/-- Setter `set_longitude_deg` of the bindings: updates `longitude_deg`,
returns `Ok`. -/
def GroundStation.set_longitude_deg (self : GroundStation) (long_deg : ℚ) :
    Except NyxError GroundStation :=
  .ok { self with longitude_deg := long_deg }

/-- Getter `get_height_km` of the bindings. -/
def GroundStation.get_height_km (self : GroundStation) :
    Except NyxError ℚ :=
  .ok self.height_km

/-- Setter `set_height_km` of the bindings: updates `height_km`, returns
`Ok`. -/
def GroundStation.set_height_km (self : GroundStation) (height_km : ℚ) :
    Except NyxError GroundStation :=
  .ok { self with height_km := height_km }

/-- C10: every ground-station setter always succeeds, updates exactly its
own field leaving the other four unchanged, and the matching getter on the
result returns exactly the value that was set. -/
theorem groundStation_setters_spec (gs : GroundStation) (s : String)
    (q : ℚ) :
    gs.set_name s =
        .ok ⟨s, gs.elevation_mask_deg, gs.latitude_deg, gs.longitude_deg,
          gs.height_km⟩ ∧
      (∀ gs2, gs.set_name s = .ok gs2 → gs2.get_name = .ok s) ∧
    gs.set_elevation_mask_deg q =
        .ok ⟨gs.name, q, gs.latitude_deg, gs.longitude_deg,
          gs.height_km⟩ ∧
      (∀ gs2, gs.set_elevation_mask_deg q = .ok gs2 →
        gs2.get_elevation_mask_deg = .ok q) ∧
    gs.set_latitude_deg q =
        .ok ⟨gs.name, gs.elevation_mask_deg, q, gs.longitude_deg,
          gs.height_km⟩ ∧
      (∀ gs2, gs.set_latitude_deg q = .ok gs2 →
        gs2.get_latitude_deg = .ok q) ∧
    gs.set_longitude_deg q =
        .ok ⟨gs.name, gs.elevation_mask_deg, gs.latitude_deg, q,
          gs.height_km⟩ ∧
      (∀ gs2, gs.set_longitude_deg q = .ok gs2 →
        gs2.get_longitude_deg = .ok q) ∧
    gs.set_height_km q =
        .ok ⟨gs.name, gs.elevation_mask_deg, gs.latitude_deg,
          gs.longitude_deg, q⟩ ∧
      (∀ gs2, gs.set_height_km q = .ok gs2 →
        gs2.get_height_km = .ok q) := by
  refine ⟨rfl, ?_, rfl, ?_, rfl, ?_, rfl, ?_, rfl, ?_⟩ <;>
    · rintro gs2 h
      cases h
      rfl

/-- Witness for C10: setting the name of a concrete station yields `Ok`
with only the name replaced, and `get_name` on the updated station reads
back the value that was set. -/
theorem groundStation_setters_spec_witness :
    (⟨"Madrid", 5, 40, -4, 1/2⟩ : GroundStation).set_name "Goldstone" =
        .ok ⟨"Goldstone", 5, 40, -4, 1/2⟩ ∧
      (⟨"Goldstone", 5, 40, -4, 1/2⟩ : GroundStation).get_name =
        .ok "Goldstone" := by
  have h := groundStation_setters_spec ⟨"Madrid", 5, 40, -4, 1/2⟩
    "Goldstone" 9
  exact ⟨h.1, h.2.1 _ h.1⟩

end Nyx
